import Mathlib

/-!
Verification of the subtitle re-segmentation engine
(`app/core/subtitle_processor/spliter.py`).

The Python source is shallowly embedded: texts are `List Char` (the claims
only involve ASCII texts; Unicode-specific behaviour of `str.lower`, `\w`
and `str.strip` beyond ASCII is out of scope and noted at each definition),
timestamps are `ℚ` (Python floats; all constants and inputs in the claims
are exactly representable and the comparisons are far from any rounding
boundary, so rational arithmetic is exact), and Python exceptions are
`Except String` / `Option` failures.
-/

set_option maxRecDepth 2048

namespace Spliter

/-- One timestamped caption fragment (`ASRDataSeg(text, start_time, end_time)`),
the data class imported from the `ASRData` module. -/
structure ASRDataSeg where
  text : List Char
  start_time : ℚ
  end_time : ℚ
deriving DecidableEq

/-- `SEGMENT_THRESHOLD = 500` — the per-chunk word-count constant at the top of
the module. -/
def SEGMENT_THRESHOLD : Nat := 500

/-- `SPLIT_RANGE = 30`. -/
def SPLIT_RANGE : Nat := 30

/-- `MAX_GAP = 1500.0` (ms). -/
def MAX_GAP : ℚ := 1500

/-- Python `range(a, b)` as a list of naturals (empty when `b ≤ a`). -/
def pyRangeNat (a b : Nat) : List Nat := (List.range (b - a)).map (a + ·)

/-- Python whitespace for `str.split()` / `str.strip()` (ASCII scope). -/
def isPyWS (c : Char) : Bool :=
  c = ' ' || c = '\t' || c = '\n' || c = '\r' || c = '\x0b' || c = '\x0c'

/-- Python `str.strip()` (ASCII whitespace scope). -/
def pyStrip (t : List Char) : List Char :=
  ((t.dropWhile isPyWS).reverse.dropWhile isPyWS).reverse

/-- Python `str.lower()` (ASCII scope); core's `Char.toLower` maps exactly
the basic latin uppercase letters to lowercase, as Python does on ASCII. -/
def pyLower (t : List Char) : List Char := t.map Char.toLower

/-- Accumulator loop for Python `str.split()`: `cur` is the current token,
reversed. -/
def pyTokensGo : List Char → List Char → List (List Char)
  | [], cur => if cur.isEmpty then [] else [cur.reverse]
  | c :: rest, cur =>
    if isPyWS c then
      if cur.isEmpty then pyTokensGo rest []
      else cur.reverse :: pyTokensGo rest []
    else pyTokensGo rest (c :: cur)

/-- Python `str.split()` with no argument: maximal runs of non-whitespace. -/
def pyTokens (t : List Char) : List (List Char) := pyTokensGo t []

/-- A word character for `re.search(r'\w', s)` (ASCII scope: Python `\w` also
matches non-ASCII word characters, which no claim involves). -/
def isWordChar (c : Char) : Bool := c.isAlphanum || c = '_'

/-- `is_pure_punctuation`: true iff the string has no word character. -/
def is_pure_punctuation (t : List Char) : Bool := !(t.any isWordChar)

/-- The ten single-character Unicode script ranges of `count_words`, in source
order: CJK, hiragana, katakana, hangul syllables, Thai, Arabic, Cyrillic,
Hebrew, Latin extended additional, hangul compatibility jamo. -/
def scriptRanges : List (Nat × Nat) :=
  [(0x4e00, 0x9fff), (0x3040, 0x309f), (0x30a0, 0x30ff), (0xac00, 0xd7af),
   (0x0e00, 0x0e7f), (0x0600, 0x06ff), (0x0400, 0x04ff), (0x0590, 0x05ff),
   (0x1e00, 0x1eff), (0x3130, 0x318f)]

/-- Membership of a character in one script range. -/
def inScriptRange (r : Nat × Nat) (c : Char) : Bool :=
  r.1 ≤ c.toNat && c.toNat ≤ r.2

/-- `count_words`: count characters of each script range, erasing them (to a
space) before the next range is processed, then count the whitespace-split
tokens of the residual text. -/
def count_words (t : List Char) : Nat :=
  let step := fun (acc : Nat × List Char) (r : Nat × Nat) =>
    (acc.1 + acc.2.countP (inScriptRange r),
     acc.2.map (fun c => if inScriptRange r c then ' ' else c))
  let res := scriptRanges.foldl step (0, t)
  res.1 + (pyTokens res.2).length

/-- `preprocess_text`: `' '.join(s.lower().split())`. -/
def preprocess_text (t : List Char) : List Char :=
  List.intercalate [' '] (pyTokens (pyLower t))

/-! ## Time-gap grouping (`check_time_gaps`) -/

/-- Loop body of `check_time_gaps`: `curRev` is the current group in reverse
(its head is the previous fragment), `accRev` the emitted groups in reverse.
The `[]` case of `curRev` is unreachable (the current group always receives
the previous fragment before the next gap test). -/
def ctgGo (maxGap : ℚ) : List ASRDataSeg → List ASRDataSeg →
    List (List ASRDataSeg) → List (List ASRDataSeg)
  | [], curRev, accRev => (curRev.reverse :: accRev).reverse
  | q :: rest, curRev, accRev =>
    match curRev with
    | [] => ctgGo maxGap rest [q] accRev
    | p :: _ =>
      if q.start_time - p.end_time > maxGap then
        ctgGo maxGap rest [q] (curRev.reverse :: accRev)
      else
        ctgGo maxGap rest (q :: curRev) accRev

/-- `check_time_gaps(segments, max_gap)`: split the fragment run into groups
wherever the inter-fragment silence exceeds `max_gap`. -/
def check_time_gaps (segments : List ASRDataSeg) (maxGap : ℚ := MAX_GAP) :
    List (List ASRDataSeg) :=
  match segments with
  | [] => []
  | s0 :: rest => ctgGo maxGap rest [s0] []

/-! ## Length-bounded splitting (`split_long_segment`) -/

/-- Concatenation of the fragments' texts (`''.join(seg.text for seg in segs)`). -/
def textOf (segs : List ASRDataSeg) : List Char := (segs.map (·.text)).flatten

/-- The inter-fragment gaps `[segs[i+1].start_time - segs[i].end_time]`. -/
def gapsOf : List ASRDataSeg → List ℚ
  | a :: b :: rest => (b.start_time - a.end_time) :: gapsOf (b :: rest)
  | _ => []

/-- `all(abs(gap - gaps[0]) < 1e-6 for gap in gaps)`; vacuously true when
there is no gap (Python `all` on an empty generator). -/
def allEqualGaps (segs : List ASRDataSeg) : Bool :=
  match gapsOf segs with
  | [] => true
  | g0 :: gs => (g0 :: gs).all (fun g => |g - g0| < 1 / 1000000)

/-- The gap following fragment `i` (`segs[i+1].start_time - segs[i].end_time`);
call sites keep `i + 1 < segs.length`. -/
def gapAfter (segs : List ASRDataSeg) (i : Nat) : ℚ :=
  match segs.drop i with
  | a :: b :: _ => b.start_time - a.end_time
  | _ => 0

/-- Loop of Python `max(iterable, key=f)`: the running best is replaced only on
a strictly greater key, so the first maximum wins. -/
def pyMaxByGo (f : Nat → ℚ) : Nat → List Nat → Nat
  | best, [] => best
  | best, x :: xs => if f best < f x then pyMaxByGo f x xs else pyMaxByGo f best xs

/-- Python `max(l, key=f, default=dflt)`. -/
def pyMaxBy (f : Nat → ℚ) (l : List Nat) (dflt : Nat) : Nat :=
  match l with
  | [] => dflt
  | x :: xs => pyMaxByGo f x xs

/-- The split index chosen by `split_long_segment` in its recursive case:
`n // 2` when all gaps are equal within `1e-6`, otherwise the first index of
maximal following gap in `range(n // 6, (5 * n) // 6)` (default `n // 2`). -/
def splitIndexOf (segs : List ASRDataSeg) : Nat :=
  let n := segs.length
  if allEqualGaps segs then n / 2
  else pyMaxBy (gapAfter segs) (pyRangeNat (n / 6) (5 * n / 6)) (n / 2)

/-- Last element with a default. -/
def lastD (l : List ASRDataSeg) (d : ASRDataSeg) : ASRDataSeg := l.getLast?.getD d

/-- `split_long_segment(merged_text, segs_to_merge)`, with an explicit fuel
bound on the recursion depth. `none` models a Python failure: fuel exhaustion
corresponds to `RecursionError` (the source recursion is *not* structurally
decreasing — see claim C2 — so a fuel parameter is required), and the empty
fragment-list case corresponds to the `IndexError` of `segs_to_merge[0]`.
`maxWC` is `MAX_WORD_COUNT`, imported by the source from the external
`split_by_llm` module. -/
def split_long_segment (maxWC : Nat) :
    Nat → List Char → List ASRDataSeg → Option (List ASRDataSeg)
  | 0, _, _ => none
  | _ + 1, _, [] => none
  | fuel + 1, mergedText, s0 :: rest =>
    if count_words mergedText ≤ maxWC || (s0 :: rest).length = 1 then
      some [⟨pyStrip mergedText, s0.start_time, (lastD (s0 :: rest) s0).end_time⟩]
    else
      let segs := s0 :: rest
      let si := splitIndexOf segs
      let firstSegs := segs.take (si + 1)
      let secondSegs := segs.drop (si + 1)
      do
        let r1 ← split_long_segment maxWC fuel (textOf firstSegs) firstSegs
        let r2 ← split_long_segment maxWC fuel (textOf secondSegs) secondSegs
        pure (r1 ++ r2)

/-! ## Optimizer (`optimize_subtitles`) -/

/-- Modelled from the spec: `ASRData.merge_with_next_segment(i)` lives in the
external `ASRData` module (not under `src/`); per spec §4.7 a merge produces a
new fragment with the concatenated text, the earliest start, and the latest
end, replacing fragments `i` and `i + 1`. -/
def merge_with_next_segment (segs : List ASRDataSeg) (i : Nat) : List ASRDataSeg :=
  match segs.get? i, segs.get? (i + 1) with
  | some a, some b =>
    segs.take i ++
      [⟨a.text ++ b.text, min a.start_time b.start_time, max a.end_time b.end_time⟩] ++
      segs.drop (i + 2)
  | _, _ => segs

/-- The descending loop of `optimize_subtitles`: visit Python index `i` from
`len - 1` down to `1`; merge fragment `i` into `i - 1` when the gap is under
300 ms, fragment `i` has under 5 words and the merged word count is at most
12. The out-of-range match arms are unreachable (the index stays in range as
the list shrinks). -/
def optLoop : List ASRDataSeg → Nat → List ASRDataSeg
  | segs, 0 => segs
  | segs, i + 1 =>
    let segs' :=
      match segs.get? (i + 1), segs.get? i with
      | some cur, some prev =>
        let timeGap := |cur.start_time - prev.end_time|
        let currentWords := count_words cur.text
        let totalWords := currentWords + count_words prev.text
        if timeGap < 300 ∧ currentWords < 5 ∧ totalWords ≤ 12 then
          merge_with_next_segment segs i
        else segs
      | _, _ => segs
    optLoop segs' i

/-- `optimize_subtitles`: one end-to-start pass merging tiny adjacent
fragments. -/
def optimize_subtitles (segs : List ASRDataSeg) : List ASRDataSeg :=
  optLoop segs (segs.length - 1)

/-! ## Chunk-count determination -/

/-- `determine_num_segments(word_count, threshold)`: `word_count // threshold`,
plus one if a remainder exists, floored at 1. -/
def determine_num_segments (wordCount : Nat) (threshold : Nat := 1000) : Nat :=
  let n := wordCount / threshold
  let n := if wordCount % threshold > 0 then n + 1 else n
  max 1 n

/-! ## `difflib.SequenceMatcher(None, a, b).ratio()`

The source constructs the matcher with `isjunk=None`, so the junk set is
empty: the two junk-extension loops of `find_longest_match` never fire and
the two non-junk extension loops reduce to plain character-equality
extension. Autojunk ("popular" characters, only for `len(b) >= 200`) is kept.
Floats: `ratio` values are quotients `2*M/T` with `T ≤` a few hundred in any
comparison the claims exercise; consecutive candidate values differ by far
more than double rounding error, and the `0.5` and `1.0` thresholds are exact
binary floats, so the rational model is exact. -/

/-- Character at an index (call sites keep indices in bounds). -/
def getCh (t : List Char) (i : Nat) : Char := t.getD i ' '

/-- `b2j[c]`: ascending indices of `c` in `b`, with popular characters purged
when `len(b) >= 200` (autojunk: more than `len(b) // 100 + 1` occurrences). -/
def b2j (b : List Char) (c : Char) : List Nat :=
  let idxs := (b.enum.filter (fun p => p.2 = c)).map (·.1)
  if 200 ≤ b.length && b.length / 100 + 1 < idxs.length then [] else idxs

/-- `j2len.get(j, 0)` on the association-list model of the dict. -/
def j2lenGet (m : List (Nat × Nat)) (j : Nat) : Nat := (m.lookup j).getD 0

/-- Inner loop of `find_longest_match` for one `i`: walk the ascending index
list `b2j[a[i]]`, skipping `j < blo` (`continue`) and stopping at `j ≥ bhi`
(`break`), building the new dict and updating the best block on a strictly
longer run. -/
def flmRowGo (j2len : List (Nat × Nat)) (blo bhi i : Nat) :
    List Nat → List (Nat × Nat) → Nat × Nat × Nat → List (Nat × Nat) × (Nat × Nat × Nat)
  | [], newj2len, best => (newj2len, best)
  | j :: js, newj2len, best =>
    if j < blo then flmRowGo j2len blo bhi i js newj2len best
    else if bhi ≤ j then (newj2len, best)
    else
      let k := (match j with | 0 => 0 | jp + 1 => j2lenGet j2len jp) + 1
      let newj2len := (j, k) :: newj2len
      let best := if best.2.2 < k then (i + 1 - k, j + 1 - k, k) else best
      flmRowGo j2len blo bhi i js newj2len best

/-- Outer loop of `find_longest_match` over `i in range(alo, ahi)`. -/
def flmRows (bmap : Char → List Nat) (a : List Char) (blo bhi : Nat) :
    List Nat → List (Nat × Nat) → Nat × Nat × Nat → Nat × Nat × Nat
  | [], _, best => best
  | i :: rest, j2len, best =>
    let res := flmRowGo j2len blo bhi i (bmap (getCh a i)) [] best
    flmRows bmap a blo bhi rest res.1 res.2

/-- Left extension loop (`while besti > alo and bestj > blo and a[besti-1] ==
b[bestj-1]`); the fuel `besti` bounds the number of decrements. -/
def extendLeft (a b : List Char) (alo blo : Nat) :
    Nat → Nat × Nat × Nat → Nat × Nat × Nat
  | 0, best => best
  | fuel + 1, (bi, bj, bs) =>
    if alo < bi && blo < bj && getCh a (bi - 1) == getCh b (bj - 1) then
      extendLeft a b alo blo fuel (bi - 1, bj - 1, bs + 1)
    else (bi, bj, bs)

/-- Right extension loop (`while besti+bestsize < ahi and bestj+bestsize <
bhi and a[besti+bestsize] == b[bestj+bestsize]`); fuel `ahi` bounds it. -/
def extendRight (a b : List Char) (ahi bhi : Nat) :
    Nat → Nat × Nat × Nat → Nat × Nat × Nat
  | 0, best => best
  | fuel + 1, (bi, bj, bs) =>
    if bi + bs < ahi && bj + bs < bhi && getCh a (bi + bs) == getCh b (bj + bs) then
      extendRight a b ahi bhi fuel (bi, bj, bs + 1)
    else (bi, bj, bs)

/-- `find_longest_match(alo, ahi, blo, bhi)` with an empty junk set. -/
def find_longest_match (a b : List Char) (alo ahi blo bhi : Nat) : Nat × Nat × Nat :=
  let best := flmRows (b2j b) a blo bhi (pyRangeNat alo ahi) [] (alo, blo, 0)
  let best := extendLeft a b alo blo best.1 best
  extendRight a b ahi bhi ahi best

/-- Total size of the matching blocks of `get_matching_blocks` restricted to
`a[alo:ahi]` × `b[blo:bhi]`: the longest match plus the recursive totals on
both sides. The queue order of the Python implementation does not affect this
sum. Fuel bounds the recursion depth (each side strictly shrinks the `a`
range when the match is nonempty, so `ahi - alo + 1` fuel suffices). -/
def matchingSize (a b : List Char) : Nat → Nat → Nat → Nat → Nat → Nat
  | 0, _, _, _, _ => 0
  | fuel + 1, alo, ahi, blo, bhi =>
    let res := find_longest_match a b alo ahi blo bhi
    let i := res.1
    let j := res.2.1
    let k := res.2.2
    if k = 0 then 0
    else k + matchingSize a b fuel alo i blo j + matchingSize a b fuel (i + k) ahi (j + k) bhi

/-- `SequenceMatcher(None, a, b).ratio()` as an exact rational:
`2 * matches / (len(a) + len(b))`, or `1.0` when both are empty. -/
def ratioQ (a b : List Char) : ℚ :=
  let t := a.length + b.length
  if t = 0 then 1
  else 2 * (matchingSize a b (a.length + 1) 0 a.length 0 b.length : ℚ) / t

/-! ## Stable sorting (Python `sorted` / `list.sort` are stable) -/

/-- Stable insertion: an element is placed before the first strictly greater
key, after equal keys, which matches Python sort stability. -/
def insertStable {α β : Type} [LinearOrder β] (key : α → β) (x : α) : List α → List α
  | [] => [x]
  | y :: ys => if key x ≤ key y then x :: y :: ys else y :: insertStable key x ys

/-- Stable sort by key (insertion sort; Python `sorted(l, key=key)`). -/
def sortStableByKey {α β : Type} [LinearOrder β] (key : α → β) : List α → List α
  | [] => []
  | x :: xs => insertStable key x (sortStableByKey key xs)

/-! ## The sentence aligner (`merge_segments_based_on_sentences`) -/

/-- The best-so-far record of the sliding-window search:
`(best_ratio, best_pos, best_window_size)`. -/
structure Best where
  bestRatioQ : ℚ
  bestPos : Option Nat
  bestWindow : Nat
deriving DecidableEq

/-- The loop state carried across sentences: the cursor `asr_index`, the
search slack `max_shift`, the Python local `end_seg_index` (`none` until its
first assignment — reading it then is an `UnboundLocalError`), the output
list, and (as ghost instrumentation, absent from the source and never read
by it) the list of accepted fragment ranges `(start_seg_index,
end_seg_index)`. -/
structure AlignState where
  asrIndex : Nat
  maxShift : Nat
  endSegIdx : Option Nat
  out : List ASRDataSeg
  ranges : List (Nat × Nat)
deriving DecidableEq

/-- Inner start-position loop: update the best on a strictly greater ratio,
then `break` (second component `true`) on an exact match. -/
def scanStarts (sentenceProc : List Char) (asrTexts : List (List Char)) (ws : Nat) :
    List Nat → Best → Best × Bool
  | [], best => (best, false)
  | s :: rest, best =>
    let substr := ((asrTexts.drop s).take ws).flatten
    let substrProc := preprocess_text substr
    let r := ratioQ sentenceProc substrProc
    let best' := if best.bestRatioQ < r then ⟨r, some s, ws⟩ else best
    if r = 1 then (best', true)
    else scanStarts sentenceProc asrTexts ws rest best'

/-- Outer window-size loop; `asr_len - window_size + 1` is computed in `ℕ`,
which agrees with Python because every candidate window size is at most
`asr_len - asr_index`. Breaks once the best ratio reaches `1.0`. -/
def scanWindows (sentenceProc : List Char) (asrTexts : List (List Char))
    (asrLen asrIndex maxShift : Nat) : List Nat → Best → Best
  | [], best => best
  | ws :: rest, best =>
    let maxStart := min (asrIndex + maxShift + 1) (asrLen - ws + 1)
    let res := scanStarts sentenceProc asrTexts ws (pyRangeNat asrIndex maxStart) best
    if res.1.bestRatioQ = 1 then res.1
    else scanWindows sentenceProc asrTexts asrLen asrIndex maxShift rest res.1

/-- Merge one time-gap group: build the merged fragment (concatenated text,
group start, group end); split it when the merged text exceeds
`MAX_WORD_COUNT`. The `[]` arm is unreachable (`check_time_gaps` emits
nonempty groups). -/
def mergeGroup (maxWC : Nat) (group : List ASRDataSeg) : Option (List ASRDataSeg) :=
  match group with
  | [] => some []
  | g0 :: rest =>
    let mergedText := textOf (g0 :: rest)
    if maxWC < count_words mergedText then
      split_long_segment maxWC ((g0 :: rest).length + 1) mergedText (g0 :: rest)
    else
      some [⟨mergedText, g0.start_time, (lastD (g0 :: rest) g0).end_time⟩]

/-- The unmatched-sentence branch (`else:` of the acceptance test): widen
`max_shift` to 100 and set `asr_index = end_seg_index + 1`. `end_seg_index`
is only ever assigned in the acceptance branch, so before any acceptance this
read raises `UnboundLocalError`; afterwards it holds the stale value of the
last acceptance. -/
def rejectStep (st : AlignState) : Except String AlignState :=
  match st.endSegIdx with
  | none => Except.error "UnboundLocalError: end_seg_index referenced before assignment"
  | some e => Except.ok { st with maxShift := 100, asrIndex := e + 1 }

/-- The whole sliding-window search of one sentence: window sizes from
`max(1, w//2)` to `min(2w, asr_len - asr_index)` sorted by distance from the
sentence word count, scanned from the cursor with the current slack. -/
def sentenceBest (asrTexts : List (List Char)) (st : AlignState)
    (sentence : List Char) : Best :=
  let asrLen := asrTexts.length
  let sentenceProc := preprocess_text sentence
  let wordCount := count_words sentenceProc
  let maxWindowSize := min (wordCount * 2) (asrLen - st.asrIndex)
  let minWindowSize := max 1 (wordCount / 2)
  let windowSizes := sortStableByKey (fun x : Nat => ((x : ℤ) - (wordCount : ℤ)).natAbs)
    (pyRangeNat minWindowSize (maxWindowSize + 1))
  scanWindows sentenceProc asrTexts asrLen st.asrIndex st.maxShift
    windowSizes ⟨0, none, 0⟩

/-- Process one sentence of `merge_segments_based_on_sentences`. `maxWC` is
the external `MAX_WORD_COUNT` constant. -/
def stepSentence (maxWC : Nat) (asrTexts : List (List Char)) (segs : List ASRDataSeg)
    (st : AlignState) (sentence : List Char) : Except String AlignState :=
  let best := sentenceBest asrTexts st sentence
  match best.bestPos with
  | some bestPos =>
    if (1 : ℚ) / 2 ≤ best.bestRatioQ then
      let endSegIndex := bestPos + best.bestWindow - 1
      let segsToMerge := (segs.drop bestPos).take best.bestWindow
      let segGroups := check_time_gaps segsToMerge
      match segGroups.mapM (mergeGroup maxWC) with
      | none => Except.error "RecursionError in split_long_segment"
      | some newSegs =>
        Except.ok { asrIndex := endSegIndex + 1, maxShift := 30,
                    endSegIdx := some endSegIndex,
                    out := st.out ++ newSegs.flatten,
                    ranges := st.ranges ++ [(bestPos, endSegIndex)] }
    else rejectStep st
  | none => rejectStep st

/-- The initial aligner state: cursor 0, slack 30, `end_seg_index` unassigned. -/
def alignInit : AlignState := ⟨0, 30, none, [], []⟩

/-- The full aligner loop, exposing the final state. -/
def alignRun (maxWC : Nat) (segs : List ASRDataSeg) (sentences : List (List Char)) :
    Except String AlignState :=
  let asrTexts := segs.map (·.text)
  sentences.foldlM (stepSentence maxWC asrTexts segs) alignInit

/-- `merge_segments_based_on_sentences(asr_data, sentences)`: the new segment
list, or the Python exception the loop raises. -/
def merge_segments_based_on_sentences (maxWC : Nat) (segs : List ASRDataSeg)
    (sentences : List (List Char)) : Except String (List ASRDataSeg) :=
  (alignRun maxWC segs sentences).map (·.out)

/-! ## Chunking (`split_asr_data`) and the orchestrator (`merge_segments`) -/

/-- Modelled from the spec: `ASRData.to_txt` lives in the external `ASRData`
module (not under `src/`); per spec §2/§6 it yields the flattened text of the
fragment sequence, one fragment per line (the orchestrator immediately
strips the newlines). -/
def asrToTxt (segs : List ASRDataSeg) : List Char :=
  List.intercalate ['\n'] (segs.map (·.text))

/-- The split-point adjustment loop of `split_asr_data`: scan
`j in range(start, end)` keeping the first strictly-greater gap
(`max_gap` starts at `-1`, `best_index` at the unadjusted split point). -/
def adjustGo (segs : List ASRDataSeg) : List Nat → ℚ → Nat → Nat
  | [], _, best => best
  | j :: js, curMax, best =>
    let gap := gapAfter segs j
    if curMax < gap then adjustGo segs js gap j else adjustGo segs js curMax best

/-- `sorted(list(set(xs)))`. -/
def dedupSortNat (xs : List Nat) : List Nat := sortStableByKey id xs.dedup

/-- Cut the fragment list at the adjusted split indices: each part is
`segs[prev : index + 1]`, plus the remainder. -/
def buildParts (segs : List ASRDataSeg) : List Nat → Nat → List (List ASRDataSeg)
  | [], prev => if prev < segs.length then [segs.drop prev] else []
  | i :: rest, prev => ((segs.drop prev).take (i + 1 - prev)) :: buildParts segs rest (i + 1)

/-- `split_asr_data(asr_data, num_segments)`. Callers always pass
`num_segments ≥ 1` (it comes from `determine_num_segments`). -/
def split_asr_data (segs : List ASRDataSeg) (numSegments : Nat) : List (List ASRDataSeg) :=
  let totalSegs := segs.length
  let totalWordCount := count_words (asrToTxt segs)
  let wordsPerSegment := totalWordCount / numSegments
  if numSegments ≤ 1 || totalSegs ≤ numSegments then [segs]
  else
    let splitIndices := (pyRangeNat 1 numSegments).map (· * wordsPerSegment)
    let adjusted := splitIndices.map (fun sp =>
      adjustGo segs (pyRangeNat (sp - SPLIT_RANGE) (min (totalSegs - 1) (sp + SPLIT_RANGE)))
        (-1) sp)
    buildParts segs (dedupSortNat adjusted) 0

/-- One character of the letters-and-apostrophes preprocessing test: an
ASCII letter, or an apostrophe (code point 39). -/
def letterOrApos (c : Char) : Bool :=
  ('a' ≤ c && c ≤ 'z') || ('A' ≤ c && c ≤ 'Z') || c.toNat = 39

/-- The anchored regex match of the preprocessing loop over the stripped
text: nonempty and consisting only of ASCII letters and apostrophes. -/
def isLetterAposOnly (t : List Char) : Bool :=
  let s := pyStrip t
  !s.isEmpty && s.all letterOrApos

/-- The in-place text rewrite of the preprocessing loop:
`seg.text = seg.text.lower() + " "` when the stripped text is letters and
apostrophes only. -/
def transformSeg (s : ASRDataSeg) : ASRDataSeg :=
  if isLetterAposOnly s.text then { s with text := pyLower s.text ++ [' '] } else s

/-- The preprocessing loop at the top of `merge_segments`: drop
pure-punctuation fragments, rewrite letter-only texts; the result is stored
back into `asr_data.segments` (the caller's sequence is mutated). -/
def preprocessSegments : List ASRDataSeg → List ASRDataSeg
  | [] => []
  | s :: rest =>
    if is_pure_punctuation s.text then preprocessSegments rest
    else transformSeg s :: preprocessSegments rest

/-- `merge_segments(asr_data, model, num_threads)`. The external
`split_by_llm` collaborator is abstracted as `sentenceOracle` (the
thread-pool `executor.map` preserves chunk order, so the parallel dispatch is
the order-preserving `map` below); `maxWC` is the external `MAX_WORD_COUNT`. -/
def merge_segments (sentenceOracle : List Char → List (List Char)) (maxWC : Nat)
    (segs : List ASRDataSeg) : Except String (List ASRDataSeg) := do
  let pre := preprocessSegments segs
  let txt := (asrToTxt pre).filter (· != '\n')
  let totalWordCount := count_words txt
  let numSegments := determine_num_segments totalWordCount SEGMENT_THRESHOLD
  let parts := split_asr_data pre numSegments
  let allSentences :=
    (parts.map (fun p => sentenceOracle ((asrToTxt p).filter (· != '\n')))).flatten
  let merged ← merge_segments_based_on_sentences maxWC pre allSentences
  let sorted := sortStableByKey (·.start_time) merged
  pure (optimize_subtitles sorted)

/-! ## Concrete inputs used by the claims -/

/-- The end-to-end scenario fragments of spec §8:
`[("The",0,100),("quick",100,200),("fox",200,2200),("jumps",2200,2300)]`. -/
def exSegs : List ASRDataSeg :=
  [⟨"The".data, 0, 100⟩, ⟨"quick".data, 100, 200⟩, ⟨"fox".data, 200, 2200⟩,
   ⟨"jumps".data, 2200, 2300⟩]

/-- The scenario's target sentences. -/
def exSents : List (List Char) := ["the quick".data, "fox jumps".data]

/-- Two seven-word fragments with a single (hence trivially all-equal) gap;
their joined text has 14 words. -/
def c2segs : List ASRDataSeg :=
  [⟨"a b c d e f g ".data, 0, 100⟩, ⟨"h i j k l m n ".data, 100, 200⟩]

/-- Two fragments of which a sentence list matches only the first. -/
def c3segs : List ASRDataSeg :=
  [⟨"hello".data, 0, 100⟩, ⟨"world".data, 100, 200⟩]

/-- A single sentence exactly matching the first fragment of `c3segs`. -/
def c3sents : List (List Char) := ["hello".data]

/-- Three consecutive four-word fragments, pairwise gaps 0 ms, total word
count 12. -/
def c6segs : List ASRDataSeg :=
  [⟨"a b c d ".data, 0, 100⟩, ⟨"e f g h ".data, 100, 200⟩, ⟨"i j k l ".data, 200, 300⟩]

/-- Four one-word fragments with inter-fragment gaps 100 ms, 2000 ms, 50 ms. -/
def c9segs : List ASRDataSeg :=
  [⟨"a".data, 0, 100⟩, ⟨"b".data, 200, 300⟩, ⟨"c".data, 2300, 2400⟩, ⟨"d".data, 2450, 2500⟩]

/-- Six two-word fragments with strictly increasing gaps 10, 20, 30, 40, 50 ms. -/
def c8segs : List ASRDataSeg :=
  [⟨"a b ".data, 0, 100⟩, ⟨"c d ".data, 110, 200⟩, ⟨"e f ".data, 220, 300⟩,
   ⟨"g h ".data, 330, 400⟩, ⟨"i j ".data, 440, 500⟩, ⟨"k l ".data, 550, 600⟩]

/-! ## Claim C1 -/

/-- **C1** (code bug): on the very first unmatched sentence the `else` branch
reads `end_seg_index`, which has never been assigned, so
`merge_segments_based_on_sentences` raises `UnboundLocalError` instead of
logging the sentence and advancing the cursor. The fragment text `"abc"`
shares no character with the sentence `"xyz"`, so the best ratio is `0 < 0.5`. -/
theorem C1_first_unmatched_sentence_crashes :
    merge_segments_based_on_sentences 12 [⟨"abc".data, 0, 100⟩] ["xyz".data] =
      Except.error "UnboundLocalError: end_seg_index referenced before assignment" := by
  with_unfolding_all rfl

/-! ## Claim C2 -/

/-- **C2** (code bug): for a two-fragment group there is a single gap, so the
all-equal branch fires and `split_index = n // 2 = 1 = n - 1`; the first
recursive call receives the same two fragments and the same text, so
`split_long_segment` never terminates (no amount of fuel produces a result —
in Python, a `RecursionError`), refuting "split_index is always strictly
between 0 and n-1 for n ≥ 2". -/
theorem C2_two_fragment_split_diverges :
    (∀ fuel, split_long_segment 12 fuel (textOf c2segs) c2segs = none) ∧
    splitIndexOf c2segs = c2segs.length - 1 := by
  constructor
  · intro fuel
    induction fuel with
    | zero => rfl
    | succ n ih =>
      have h : split_long_segment 12 (n + 1) (textOf c2segs) c2segs =
          (split_long_segment 12 n (textOf c2segs) c2segs).bind (fun r1 =>
            (split_long_segment 12 n (textOf (c2segs.drop 2)) (c2segs.drop 2)).bind
              (fun r2 => some (r1 ++ r2))) := by
        with_unfolding_all rfl
      rw [h, ih]
      rfl
  · with_unfolding_all decide

/-! ## Claim C4 -/

/-- **C4 counterexample**: at 600 total words, `merge_segments` computes
`determine_num_segments(600, SEGMENT_THRESHOLD)` = 2 chunks, while the
claimed `max 1 ⌈600 / 1000⌉` is 1. -/
theorem C4_counterexample_600_words :
    determine_num_segments 600 SEGMENT_THRESHOLD = 2 ∧
    max 1 ((600 + 999) / 1000) = 1 ∧ (2 : Nat) ≠ 1 := by
  decide

/-- **C4 amended**: `merge_segments` passes `SEGMENT_THRESHOLD = 500` to
`determine_num_segments`, so the chunk count is `max 1 ⌈total_word_count /
500⌉` — the ceiling formula holds, but with threshold 500, not 1000. -/
theorem C4_chunk_count_ceil_500 (wc : Nat) :
    determine_num_segments wc SEGMENT_THRESHOLD = max 1 ((wc + 499) / 500) := by
  simp only [determine_num_segments, SEGMENT_THRESHOLD]
  split <;> omega

/-- Witness for C4 amended at 600 words. -/
theorem C4_chunk_count_ceil_500_witness :
    determine_num_segments 600 SEGMENT_THRESHOLD = max 1 ((600 + 499) / 500) :=
  C4_chunk_count_ceil_500 600

/-! ## Claim C5 -/

/-- **C5 counterexample**: `merge_segments` has no empty-input guard. On an
empty fragment sequence it still chunks, calls the sentence collaborator and
invokes the aligner; if the collaborator returns any sentence (here the
constant `["a"]`), the aligner's unmatched-sentence bug fires and the whole
call raises — it does not return the input unchanged. -/
theorem C5_empty_input_counterexample :
    merge_segments (fun _ => ["a".data]) 12 [] =
      Except.error "UnboundLocalError: end_seg_index referenced before assignment" := by
  with_unfolding_all rfl

/-- **C5 amended**: on an empty fragment sequence `merge_segments` runs the
full pipeline (aligner included); the result is the unchanged empty sequence
exactly when the sentence collaborator returns no sentences for the empty
flattened text. -/
theorem C5_empty_input_empty_sentences (oracle : List Char → List (List Char))
    (maxWC : Nat) (h : oracle [] = []) :
    merge_segments oracle maxWC [] = Except.ok [] := by
  have e : merge_segments oracle maxWC [] =
      (merge_segments_based_on_sentences maxWC [] ([oracle []].flatten)).bind
        (fun merged => Except.ok (optimize_subtitles (sortStableByKey (·.start_time) merged))) := by
    with_unfolding_all rfl
  rw [e, h]
  with_unfolding_all rfl

/-- Witness for C5 amended with the constantly-empty collaborator. -/
theorem C5_empty_input_empty_sentences_witness :
    merge_segments (fun _ => []) 12 [] = Except.ok [] :=
  C5_empty_input_empty_sentences (fun _ => []) 12 rfl

/-! ## Claim C6 -/

/-- **C6 counterexample**: three consecutive fragments of 4 words each, gaps
0 ms, total 12 words, satisfy every condition of the claim, yet the optimizer
leaves two fragments: after the last two merge into an 8-word fragment, that
fragment no longer has "under 5 words", so the chain stops. -/
theorem C6_counterexample_three_four_word_fragments :
    count_words ("a b c d ".data) = 4 ∧ count_words ("e f g h ".data) = 4 ∧
    count_words ("i j k l ".data) = 4 ∧
    (4 + 4 + 4 : Nat) ≤ 12 ∧
    optimize_subtitles c6segs =
      [⟨"a b c d ".data, 0, 100⟩, ⟨"e f g h i j k l ".data, 100, 300⟩] := by
  refine ⟨by decide, by decide, by decide, by decide, ?_⟩
  with_unfolding_all rfl

/-- **C6 amended**: the three fragments collapse into a single fragment
spanning the first's start and the last's end provided, in addition to the
claim's conditions, the *combined* word count of the last two fragments is
still under 5 (the second merge tests the already-merged fragment's word
count), with the word counts measured on the concatenated texts as the code
does, and the fragments chronologically ordered. -/
theorem C6_merge_chain (t1 t2 t3 : List Char) (s1 e1 s2 e2 s3 e3 : ℚ)
    (h12 : s1 ≤ s2) (h13 : e1 ≤ e3) (h23s : s2 ≤ s3) (h23e : e2 ≤ e3)
    (hg2 : |s3 - e2| < 300) (hw3 : count_words t3 < 5)
    (hT2 : count_words t3 + count_words t2 ≤ 12)
    (hg1 : |s2 - e1| < 300) (hw23 : count_words (t2 ++ t3) < 5)
    (hT1 : count_words (t2 ++ t3) + count_words t1 ≤ 12) :
    optimize_subtitles [⟨t1, s1, e1⟩, ⟨t2, s2, e2⟩, ⟨t3, s3, e3⟩] =
      [⟨t1 ++ (t2 ++ t3), s1, e3⟩] := by
  have step2 : optimize_subtitles [⟨t1, s1, e1⟩, ⟨t2, s2, e2⟩, ⟨t3, s3, e3⟩] =
      optLoop [⟨t1, s1, e1⟩, ⟨t2 ++ t3, min s2 s3, max e2 e3⟩] 1 := by
    show optLoop _ 2 = _
    conv_lhs => rw [optLoop]
    simp only [List.get?]
    rw [if_pos ⟨hg2, hw3, hT2⟩]
    rfl
  rw [step2, min_eq_left h23s, max_eq_right h23e]
  have step1 : optLoop [⟨t1, s1, e1⟩, ⟨t2 ++ t3, s2, e3⟩] 1 =
      optLoop [⟨t1 ++ (t2 ++ t3), min s1 s2, max e1 e3⟩] 0 := by
    conv_lhs => rw [optLoop]
    simp only [List.get?]
    rw [if_pos ⟨hg1, hw23, hT1⟩]
    rfl
  rw [step1, min_eq_left h12, max_eq_right h13]
  rfl

/-- Witness for C6 amended: three one-word fragments fully collapse. -/
theorem C6_merge_chain_witness :
    optimize_subtitles [⟨"a ".data, 0, 100⟩, ⟨"b ".data, 100, 200⟩, ⟨"c ".data, 200, 300⟩] =
      [⟨"a ".data ++ ("b ".data ++ "c ".data), 0, 300⟩] :=
  C6_merge_chain "a ".data "b ".data "c ".data 0 100 100 200 200 300
    (by norm_num) (by norm_num) (by norm_num) (by norm_num)
    (by with_unfolding_all decide) (by decide) (by decide)
    (by with_unfolding_all decide) (by decide) (by decide)

/-! ## Claim C7 -/

/-- **C7 counterexample**: in the spec's end-to-end scenario the first
sentence's best similarity is `16/17`, not `1.0` (fragment texts are joined
without separators, so `"the quick"` is compared against `"thequick"`), and
the second sentence is emitted as ONE merged fragment `(200, 2300)`, not two:
the 2000 ms lie inside fragment `"fox"` (its own duration, 200→2200); the
inter-fragment gaps of the matched pair are 0 ms, so `check_time_gaps` never
splits. -/
theorem C7_counterexample_single_merged_fragment :
    merge_segments_based_on_sentences 12 exSegs exSents =
      Except.ok [⟨"Thequick".data, 0, 200⟩, ⟨"foxjumps".data, 200, 2300⟩] ∧
    ratioQ (preprocess_text "the quick".data) (preprocess_text (textOf (exSegs.take 2))) =
      16 / 17 ∧
    ((16 : ℚ) / 17 ≠ 1) := by
  refine ⟨by with_unfolding_all rfl, by with_unfolding_all decide, by norm_num⟩

/-- **C7 amended**: for any positive `MAX_WORD_COUNT`, the first sentence
aligns to the first two fragments (best ratio `16/17` ≥ 0.5) and is emitted
as the merged fragment `("Thequick", 0, 200)`; the second aligns to the
remaining two (range `(2,3)`) and is emitted as the single merged fragment
`("foxjumps", 200, 2300)` because the inter-fragment gap between `"fox"` and
`"jumps"` is 0 ms, under the 1500 ms threshold (the scenario's 2000 ms is
fragment-internal). -/
theorem C7_scenario (maxWC : Nat) (h : 1 ≤ maxWC) :
    merge_segments_based_on_sentences maxWC exSegs exSents =
      Except.ok [⟨"Thequick".data, 0, 200⟩, ⟨"foxjumps".data, 200, 2300⟩] ∧
    (alignRun maxWC exSegs exSents).map (fun st => st.ranges) =
      Except.ok [(0, 1), (2, 3)] := by
  have hmg1 : mergeGroup maxWC [⟨"The".data, 0, 100⟩, ⟨"quick".data, 100, 200⟩] =
      some [⟨"Thequick".data, 0, 200⟩] := by
    have hcw : count_words (textOf [⟨"The".data, 0, 100⟩, ⟨"quick".data, 100, 200⟩]) = 1 := by
      decide
    simp only [mergeGroup]
    rw [if_neg (by rw [hcw]; omega)]
    rfl
  have hmg2 : mergeGroup maxWC [⟨"fox".data, 200, 2200⟩, ⟨"jumps".data, 2200, 2300⟩] =
      some [⟨"foxjumps".data, 200, 2300⟩] := by
    have hcw : count_words (textOf [⟨"fox".data, 200, 2200⟩, ⟨"jumps".data, 2200, 2300⟩]) = 1 := by
      decide
    simp only [mergeGroup]
    rw [if_neg (by rw [hcw]; omega)]
    rfl
  have h1 : stepSentence maxWC (exSegs.map (·.text)) exSegs alignInit ("the quick".data) =
      Except.ok ⟨2, 30, some 1, [⟨"Thequick".data, 0, 200⟩], [(0, 1)]⟩ := by
    have e1 : stepSentence maxWC (exSegs.map (·.text)) exSegs alignInit ("the quick".data) =
        match List.mapM (mergeGroup maxWC)
            [[⟨"The".data, 0, 100⟩, ⟨"quick".data, 100, 200⟩]] with
        | none => Except.error "RecursionError in split_long_segment"
        | some ns => Except.ok ⟨2, 30, some 1, ns.flatten, [(0, 1)]⟩ := by
      with_unfolding_all rfl
    rw [e1]
    rw [show List.mapM (mergeGroup maxWC)
        [[⟨"The".data, 0, 100⟩, ⟨"quick".data, 100, 200⟩]] =
        some [[⟨"Thequick".data, 0, 200⟩]] from by
      simp [List.mapM, List.mapM.loop, hmg1]]
    rfl
  have h2 : stepSentence maxWC (exSegs.map (·.text)) exSegs
      ⟨2, 30, some 1, [⟨"Thequick".data, 0, 200⟩], [(0, 1)]⟩ ("fox jumps".data) =
      Except.ok ⟨4, 30, some 3,
        [⟨"Thequick".data, 0, 200⟩, ⟨"foxjumps".data, 200, 2300⟩], [(0, 1), (2, 3)]⟩ := by
    have e2 : stepSentence maxWC (exSegs.map (·.text)) exSegs
        ⟨2, 30, some 1, [⟨"Thequick".data, 0, 200⟩], [(0, 1)]⟩ ("fox jumps".data) =
        match List.mapM (mergeGroup maxWC)
            [[⟨"fox".data, 200, 2200⟩, ⟨"jumps".data, 2200, 2300⟩]] with
        | none => Except.error "RecursionError in split_long_segment"
        | some ns => Except.ok ⟨4, 30, some 3,
            ⟨"Thequick".data, 0, 200⟩ :: ns.flatten, [(0, 1), (2, 3)]⟩ := by
      with_unfolding_all rfl
    rw [e2]
    rw [show List.mapM (mergeGroup maxWC)
        [[⟨"fox".data, 200, 2200⟩, ⟨"jumps".data, 2200, 2300⟩]] =
        some [[⟨"foxjumps".data, 200, 2300⟩]] from by
      simp [List.mapM, List.mapM.loop, hmg2]]
    rfl
  have hrun : alignRun maxWC exSegs exSents = Except.ok ⟨4, 30, some 3,
      [⟨"Thequick".data, 0, 200⟩, ⟨"foxjumps".data, 200, 2300⟩], [(0, 1), (2, 3)]⟩ := by
    have e0 : alignRun maxWC exSegs exSents =
        (stepSentence maxWC (exSegs.map (·.text)) exSegs alignInit ("the quick".data)).bind
          (fun st1 =>
            (stepSentence maxWC (exSegs.map (·.text)) exSegs st1 ("fox jumps".data)).bind
              Except.ok) := by
      with_unfolding_all rfl
    rw [e0, h1]
    show (stepSentence maxWC (exSegs.map (·.text)) exSegs _ ("fox jumps".data)).bind _ = _
    rw [h2]
    rfl
  constructor
  · show (alignRun maxWC exSegs exSents).map (fun st => st.out) = _
    rw [hrun]
    rfl
  · rw [hrun]
    rfl

/-- Witness for C7 amended at `MAX_WORD_COUNT = 12`. -/
theorem C7_scenario_witness :
    merge_segments_based_on_sentences 12 exSegs exSents =
      Except.ok [⟨"Thequick".data, 0, 200⟩, ⟨"foxjumps".data, 200, 2300⟩] ∧
    (alignRun 12 exSegs exSents).map (fun st => st.ranges) =
      Except.ok [(0, 1), (2, 3)] :=
  C7_scenario 12 (by decide)

/-! ## Claim C10 -/

/-- Lowercasing an A–Z character yields an alphanumeric (hence word)
character. -/
lemma isWordChar_toLower_of_upper {c : Char} (h1 : 'A' ≤ c) (h2 : c ≤ 'Z') :
    isWordChar (Char.toLower c) = true := by
  have hv1 : 65 ≤ c.toNat := h1
  have hv2 : c.toNat ≤ 90 := h2
  unfold Char.toLower
  rw [if_pos ⟨hv1, hv2⟩]
  have hvalid : (c.toNat + 32).isValidChar := Or.inl (by omega)
  rw [Char.ofNat, dif_pos hvalid]
  simp only [isWordChar, Char.isAlphanum, Char.isAlpha, Char.isLower, Char.isUpper,
    Char.isDigit, Char.ofNatAux, Bool.or_eq_true, decide_eq_true_eq]
  left; left; right
  simp only [UInt32.le_def, BitVec.le_def]
  simp [UInt32.toBitVec]
  constructor <;> omega

/-- `Char.toLower` maps word characters to word characters. -/
lemma isWordChar_toLower {c : Char} (h : isWordChar c = true) :
    isWordChar (Char.toLower c) = true := by
  by_cases hc : (Char.toNat c ≥ 65 ∧ Char.toNat c ≤ 90)
  · exact isWordChar_toLower_of_upper hc.1 hc.2
  · unfold Char.toLower
    rw [if_neg hc]
    exact h

/-- The preprocessing rewrite never turns a fragment with a word character
into pure punctuation. -/
lemma not_punct_transformSeg {s : ASRDataSeg} (h : is_pure_punctuation s.text = false) :
    is_pure_punctuation (transformSeg s).text = false := by
  unfold transformSeg
  split
  · show is_pure_punctuation (pyLower s.text ++ [' ']) = false
    simp only [is_pure_punctuation, Bool.not_eq_false'] at h ⊢
    rcases List.any_eq_true.mp h with ⟨c, hc, hw⟩
    exact List.any_eq_true.mpr
      ⟨Char.toLower c, List.mem_append_left _ (List.mem_map_of_mem _ hc),
        isWordChar_toLower hw⟩
  · exact h

/-- The preprocessing loop is the filter of non-punctuation fragments
followed by the per-fragment rewrite. -/
lemma preprocessSegments_eq (segs : List ASRDataSeg) :
    preprocessSegments segs =
      (segs.filter (fun s => !is_pure_punctuation s.text)).map transformSeg := by
  induction segs with
  | nil => rfl
  | cons s rest ih =>
    by_cases h : is_pure_punctuation s.text = true
    · simp [preprocessSegments, h, List.filter_cons, ih]
    · simp only [Bool.not_eq_true] at h
      simp [preprocessSegments, h, List.filter_cons, ih]

/-- **C10**: `merge_segments` rebuilds `asr_data.segments` before alignment:
the stored sequence is exactly the non-punctuation fragments, each rewritten
by `transformSeg`; pure-punctuation fragments never appear in it, and every
surviving fragment whose stripped text is ASCII letters and apostrophes only
appears with its text lowercased plus a single trailing space. -/
theorem C10_preprocessing_filter_map (segs : List ASRDataSeg) :
    preprocessSegments segs =
      (segs.filter (fun s => !is_pure_punctuation s.text)).map transformSeg ∧
    (∀ s ∈ segs, is_pure_punctuation s.text = true → s ∉ preprocessSegments segs) ∧
    (∀ s ∈ segs, is_pure_punctuation s.text = false → isLetterAposOnly s.text = true →
      (⟨pyLower s.text ++ [' '], s.start_time, s.end_time⟩ : ASRDataSeg) ∈
        preprocessSegments segs) := by
  refine ⟨preprocessSegments_eq segs, ?_, ?_⟩
  · intro s _ hp hmem
    rw [preprocessSegments_eq] at hmem
    rcases List.mem_map.mp hmem with ⟨k, hk, hks⟩
    have hknp : is_pure_punctuation k.text = false := by
      have h2 := (List.mem_filter.mp hk).2
      simpa using h2
    have hs : is_pure_punctuation s.text = false := hks ▸ not_punct_transformSeg hknp
    rw [hp] at hs
    cases hs
  · intro s hs hnp hla
    rw [preprocessSegments_eq]
    apply List.mem_map.mpr
    refine ⟨s, List.mem_filter.mpr ⟨hs, by simp [hnp]⟩, ?_⟩
    unfold transformSeg
    rw [if_pos hla]

/-- Witness for C10 on a concrete two-fragment input: the punctuation
fragment is dropped, the letters-only fragment is rewritten. -/
theorem C10_preprocessing_filter_map_witness :
    (⟨"!!".data, (0 : ℚ), 100⟩ : ASRDataSeg) ∉
      preprocessSegments [⟨"!!".data, 0, 100⟩, ⟨"Hi".data, 100, 200⟩] ∧
    (⟨pyLower "Hi".data ++ [' '], (100 : ℚ), 200⟩ : ASRDataSeg) ∈
      preprocessSegments [⟨"!!".data, 0, 100⟩, ⟨"Hi".data, 100, 200⟩] :=
  ⟨(C10_preprocessing_filter_map _).2.1 ⟨"!!".data, 0, 100⟩ (by simp) (by decide),
   (C10_preprocessing_filter_map _).2.2 ⟨"Hi".data, 100, 200⟩ (by simp) (by decide) (by decide)⟩

/-! ## Claim C9 -/

/-- Proof-layer reformulation of the `check_time_gaps` loop: group the run
headed by `p`; proved equal to the accumulator loop in
`check_time_gaps_cons_eq`. -/
def groupsRec (maxGap : ℚ) : ASRDataSeg → List ASRDataSeg → List (List ASRDataSeg)
  | p, [] => [[p]]
  | p, q :: rest =>
    if q.start_time - p.end_time > maxGap then [p] :: groupsRec maxGap q rest
    else
      match groupsRec maxGap q rest with
      | [] => [[p]]
      | g :: gs => (p :: g) :: gs

/-- The head group of `groupsRec` starts with the head fragment. -/
lemma groupsRec_shape (maxGap : ℚ) (p : ASRDataSeg) (rest : List ASRDataSeg) :
    ∃ t gs, groupsRec maxGap p rest = (p :: t) :: gs := by
  induction rest generalizing p with
  | nil => exact ⟨[], [], rfl⟩
  | cons q rest ih =>
    rcases ih q with ⟨t, gs, hq⟩
    by_cases hgap : q.start_time - p.end_time > maxGap
    · exact ⟨[], groupsRec maxGap q rest, by simp [groupsRec, hgap]⟩
    · exact ⟨q :: t, gs, by simp [groupsRec, hgap, hq]⟩

/-- The accumulator loop of `check_time_gaps` computes `groupsRec`, with the
already-closed groups and the open group prefix prepended. -/
lemma ctgGo_eq (maxGap : ℚ) : ∀ (rest : List ASRDataSeg) (p : ASRDataSeg)
    (curTail : List ASRDataSeg) (accRev : List (List ASRDataSeg)),
    ctgGo maxGap rest (p :: curTail) accRev =
      accRev.reverse ++
        (curTail.reverse ++ (groupsRec maxGap p rest).headD []) ::
          (groupsRec maxGap p rest).tail := by
  intro rest
  induction rest with
  | nil =>
    intro p curTail accRev
    simp [ctgGo, groupsRec]
  | cons q rest ih =>
    intro p curTail accRev
    by_cases hgap : q.start_time - p.end_time > maxGap
    · rw [show ctgGo maxGap (q :: rest) (p :: curTail) accRev =
          ctgGo maxGap rest [q] ((p :: curTail).reverse :: accRev) from by
        simp [ctgGo, hgap]]
      rw [ih q [] ((p :: curTail).reverse :: accRev)]
      rcases groupsRec_shape maxGap q rest with ⟨t, gs, hq⟩
      simp [groupsRec, hgap, hq]
    · rw [show ctgGo maxGap (q :: rest) (p :: curTail) accRev =
          ctgGo maxGap rest (q :: p :: curTail) accRev from by
        simp [ctgGo, hgap]]
      rw [ih q (p :: curTail) accRev]
      rcases groupsRec_shape maxGap q rest with ⟨t, gs, hq⟩
      simp [groupsRec, hgap, hq]

/-- `check_time_gaps` on a nonempty run is `groupsRec`. -/
lemma check_time_gaps_cons_eq (maxGap : ℚ) (s0 : ASRDataSeg) (rest : List ASRDataSeg) :
    check_time_gaps (s0 :: rest) maxGap = groupsRec maxGap s0 rest := by
  show ctgGo maxGap rest [s0] [] = _
  rw [ctgGo_eq maxGap rest s0 [] []]
  rcases groupsRec_shape maxGap s0 rest with ⟨t, gs, hq⟩
  simp [hq]

/-- Flattening the groups restores the input run. -/
lemma groupsRec_flatten (maxGap : ℚ) (p : ASRDataSeg) (rest : List ASRDataSeg) :
    (groupsRec maxGap p rest).flatten = p :: rest := by
  induction rest generalizing p with
  | nil => rfl
  | cons q rest ih =>
    by_cases hgap : q.start_time - p.end_time > maxGap
    · simp [groupsRec, hgap, ih q]
    · rcases groupsRec_shape maxGap q rest with ⟨t, gs, hq⟩
      have hf := ih q
      rw [hq] at hf
      simp only [List.flatten_cons] at hf
      simp [groupsRec, hgap, hq, List.flatten_cons]
      exact List.cons_injective hf

/-- Every group is nonempty. -/
lemma groupsRec_ne_nil (maxGap : ℚ) (p : ASRDataSeg) (rest : List ASRDataSeg) :
    ∀ g ∈ groupsRec maxGap p rest, g ≠ [] := by
  induction rest generalizing p with
  | nil => simp [groupsRec]
  | cons q rest ih =>
    by_cases hgap : q.start_time - p.end_time > maxGap
    · simp only [groupsRec, if_pos hgap]
      intro g hg
      rcases List.mem_cons.mp hg with h | h
      · simp [h]
      · exact ih q g h
    · rcases groupsRec_shape maxGap q rest with ⟨t, gs, hq⟩
      simp only [groupsRec, if_neg hgap, hq]
      intro g hg
      rcases List.mem_cons.mp hg with h | h
      · simp [h]
      · exact ih q g (by rw [hq]; exact List.mem_cons_of_mem _ h)

/-- Inside a group, consecutive fragments are within the gap threshold. -/
def withinGroupOk (maxGap : ℚ) (g : List ASRDataSeg) : Prop :=
  List.Chain' (fun a b => b.start_time - a.end_time ≤ maxGap) g

/-- Between consecutive groups, the gap exceeds the threshold. -/
def boundaryGt (maxGap : ℚ) (g1 g2 : List ASRDataSeg) : Prop :=
  ∀ a ∈ g1.getLast?, ∀ b ∈ g2.head?, maxGap < b.start_time - a.end_time

/-- The grouping guarantee: all groups nonempty, gaps inside each group at
most the threshold, gaps across group boundaries above it. -/
def groupsGapOk (maxGap : ℚ) (gs : List (List ASRDataSeg)) : Prop :=
  (∀ g ∈ gs, g ≠ []) ∧ (∀ g ∈ gs, withinGroupOk maxGap g) ∧
    List.Chain' (boundaryGt maxGap) gs

/-- In-group gaps stay within the threshold. -/
lemma groupsRec_within (maxGap : ℚ) (p : ASRDataSeg) (rest : List ASRDataSeg) :
    ∀ g ∈ groupsRec maxGap p rest, withinGroupOk maxGap g := by
  induction rest generalizing p with
  | nil =>
    simp [groupsRec, withinGroupOk]
  | cons q rest ih =>
    by_cases hgap : q.start_time - p.end_time > maxGap
    · simp only [groupsRec, if_pos hgap]
      intro g hg
      rcases List.mem_cons.mp hg with h | h
      · simp [h, withinGroupOk]
      · exact ih q g h
    · rcases groupsRec_shape maxGap q rest with ⟨t, gs, hq⟩
      simp only [groupsRec, if_neg hgap, hq]
      intro g hg
      rcases List.mem_cons.mp hg with h | h
      · subst h
        have hqt : withinGroupOk maxGap (q :: t) :=
          ih q (q :: t) (by rw [hq]; exact List.mem_cons_self _ _)
        refine List.chain'_cons'.mpr ⟨fun y hy => ?_, hqt⟩
        have hqy : q = y := by simpa using hy
        subst hqy
        exact not_lt.mp hgap
      · exact ih q g (by rw [hq]; exact List.mem_cons_of_mem _ h)

/-- Across consecutive groups the gap exceeds the threshold. -/
lemma groupsRec_chain (maxGap : ℚ) (p : ASRDataSeg) (rest : List ASRDataSeg) :
    List.Chain' (boundaryGt maxGap) (groupsRec maxGap p rest) := by
  induction rest generalizing p with
  | nil => simp [groupsRec]
  | cons q rest ih =>
    by_cases hgap : q.start_time - p.end_time > maxGap
    · simp only [groupsRec, if_pos hgap]
      refine List.chain'_cons'.mpr ⟨fun g hg => ?_, ih q⟩
      rcases groupsRec_shape maxGap q rest with ⟨t, gs, hq⟩
      rw [hq] at hg
      have hgq : q :: t = g := by simpa using hg
      subst hgq
      intro a ha b hb
      have hap : p = a := by simpa using ha
      have hbq : q = b := by simpa using hb
      subst hap; subst hbq
      exact hgap
    · rcases groupsRec_shape maxGap q rest with ⟨t, gs, hq⟩
      simp only [groupsRec, if_neg hgap, hq]
      have hih := ih q
      rw [hq] at hih
      cases gs with
      | nil => simp
      | cons g1 gsTail =>
        rcases List.chain'_cons.mp hih with ⟨hbdy, htail⟩
        refine List.chain'_cons.mpr ⟨?_, htail⟩
        intro a ha b hb
        refine hbdy a ?_ b hb
        rwa [List.getLast?_cons_cons] at ha

/-- **C9**: `check_time_gaps` is a contiguous, order-preserving partition
(flattening the groups restores the input, so every fragment appears exactly
once), a new group starts exactly where the gap exceeds the threshold
(in-group gaps ≤ threshold, boundary gaps > threshold, no empty group);
empty input gives `[]`, a single fragment gives one group of one, and the
gaps `[100, 2000, 50]` ms with threshold 1500 give exactly two groups split
at the 2000 ms gap. -/
theorem C9_grouping_partition :
    (∀ (segs : List ASRDataSeg) (maxGap : ℚ),
      (check_time_gaps segs maxGap).flatten = segs ∧
      groupsGapOk maxGap (check_time_gaps segs maxGap)) ∧
    check_time_gaps [] MAX_GAP = [] ∧
    (∀ s : ASRDataSeg, check_time_gaps [s] MAX_GAP = [[s]]) ∧
    check_time_gaps c9segs MAX_GAP =
      [[⟨"a".data, 0, 100⟩, ⟨"b".data, 200, 300⟩],
       [⟨"c".data, 2300, 2400⟩, ⟨"d".data, 2450, 2500⟩]] := by
  refine ⟨?_, rfl, fun s => rfl, by with_unfolding_all rfl⟩
  intro segs maxGap
  cases segs with
  | nil => exact ⟨rfl, by simp [check_time_gaps, groupsGapOk], by simp [check_time_gaps],
      by simp [check_time_gaps]⟩
  | cons s0 rest =>
    rw [check_time_gaps_cons_eq]
    exact ⟨groupsRec_flatten maxGap s0 rest,
      groupsRec_ne_nil maxGap s0 rest,
      groupsRec_within maxGap s0 rest,
      groupsRec_chain maxGap s0 rest⟩

/-- Witness for C9 applied to the two-fragment input of claim C3's scenario. -/
theorem C9_grouping_partition_witness :
    (check_time_gaps c3segs MAX_GAP).flatten = c3segs ∧
    groupsGapOk MAX_GAP (check_time_gaps c3segs MAX_GAP) :=
  C9_grouping_partition.1 c3segs MAX_GAP

/-! ## Claim C8 -/

/-- `pyRangeNat` is `List.range'`. -/
lemma pyRangeNat_eq_range' (a b : Nat) : pyRangeNat a b = List.range' a (b - a) := by
  simp [pyRangeNat, List.range'_eq_map_range]

/-- `m` is the first index of maximal key in `[lo, hi)`: it is in range, its
key dominates the range, and every earlier in-range index has a strictly
smaller key (Python `max` keeps the first maximum). -/
def IsFirstArgmaxOn (f : Nat → ℚ) (lo hi m : Nat) : Prop :=
  lo ≤ m ∧ m < hi ∧ (∀ j, lo ≤ j → j < hi → f j ≤ f m) ∧
    (∀ j, lo ≤ j → j < m → f j < f m)

/-- Invariant-carrying specification of the `max(..., key=...)` loop over the
remaining range `[lo, lo+len)`, with running best `best`. -/
lemma pyMaxByGo_range'_spec (f : Nat → ℚ) :
    ∀ (len lo best lo0 : Nat), lo0 ≤ best → best < lo →
      (∀ j, lo0 ≤ j → j < lo → f j ≤ f best) →
      (∀ j, lo0 ≤ j → j < best → f j < f best) →
      IsFirstArgmaxOn f lo0 (lo + len) (pyMaxByGo f best (List.range' lo len)) := by
  intro len
  induction len with
  | zero =>
    intro lo best lo0 h1 h2 h3 h4
    simp only [List.range', pyMaxByGo]
    exact ⟨h1, by omega, fun j hj1 hj2 => h3 j hj1 (by omega), h4⟩
  | succ n ih =>
    intro lo best lo0 h1 h2 h3 h4
    rw [List.range'_succ]
    simp only [pyMaxByGo]
    by_cases hl : f best < f lo
    · rw [if_pos hl]
      have hres := ih (lo + 1) lo lo0 (by omega) (by omega)
        (fun j hj1 hj2 => by
          rcases Nat.lt_or_ge j lo with hj | hj
          · exact le_of_lt (lt_of_le_of_lt (h3 j hj1 hj) hl)
          · have hjl : j = lo := by omega
            subst hjl
            exact le_refl _)
        (fun j hj1 hj2 => lt_of_le_of_lt (h3 j hj1 hj2) hl)
      have harith : lo + 1 + n = lo + (n + 1) := by omega
      rwa [harith] at hres
    · rw [if_neg hl]
      have hle : f lo ≤ f best := not_lt.mp hl
      have hres := ih (lo + 1) best lo0 h1 (by omega)
        (fun j hj1 hj2 => by
          rcases Nat.lt_or_ge j lo with hj | hj
          · exact h3 j hj1 hj
          · have hjl : j = lo := by omega
            subst hjl
            exact hle)
        h4
      have harith : lo + 1 + n = lo + (n + 1) := by omega
      rwa [harith] at hres

/-- Python `max(range(lo, hi), key=f, default=d)` with `lo < hi` returns the
first index of maximal key. -/
lemma pyMaxBy_spec (f : Nat → ℚ) (lo hi dflt : Nat) (h : lo < hi) :
    IsFirstArgmaxOn f lo hi (pyMaxBy f (pyRangeNat lo hi) dflt) := by
  rw [pyRangeNat_eq_range']
  have hd : hi - lo = (hi - lo - 1) + 1 := by omega
  rw [hd, List.range'_succ]
  show IsFirstArgmaxOn f lo hi (pyMaxByGo f lo (List.range' (lo + 1) (hi - lo - 1)))
  have hres := pyMaxByGo_range'_spec f (hi - lo - 1) (lo + 1) lo lo (le_refl _) (by omega)
    (fun j hj1 hj2 => by
      have hjl : j = lo := by omega
      subst hjl
      exact le_refl _)
    (fun j hj1 hj2 => absurd hj2 (not_lt.mpr hj1))
  have harith : lo + 1 + (hi - lo - 1) = hi := by omega
  rwa [harith] at hres

/-- `gapsOf` has one entry per adjacent pair. -/
lemma gapsOf_length : ∀ segs : List ASRDataSeg, (gapsOf segs).length = segs.length - 1
  | [] => rfl
  | [_] => rfl
  | a :: b :: rest => by
    have h := gapsOf_length (b :: rest)
    simp only [gapsOf, List.length_cons] at h ⊢
    omega

/-- With at most one gap, the all-equal test is vacuously true. -/
lemma allEqualGaps_of_short {segs : List ASRDataSeg} (h : segs.length ≤ 2) :
    allEqualGaps segs = true := by
  match segs, h with
  | [], _ => rfl
  | [a], _ => rfl
  | [a, b], _ =>
    simp only [allEqualGaps, gapsOf, List.all_cons, List.all_nil, Bool.and_true]
    rw [sub_self, abs_zero]
    norm_num

/-- A failed all-equal test needs at least two gaps, hence three fragments. -/
lemma three_le_of_not_allEqual {segs : List ASRDataSeg}
    (h : allEqualGaps segs = false) : 3 ≤ segs.length := by
  by_contra hlt
  rw [allEqualGaps_of_short (by omega)] at h
  cases h

/-- Adjacent strict increase gives strict monotonicity below the bound. -/
lemma strict_chain_lt (f : Nat → ℚ) (n : Nat)
    (hstep : ∀ i, i + 1 < n → f i < f (i + 1)) :
    ∀ a b, a < b → b < n → f a < f b := by
  intro a b hab hbn
  induction b with
  | zero => omega
  | succ m ih =>
    rcases Nat.lt_or_ge a m with h | h
    · exact lt_trans (ih h (by omega)) (hstep m (by omega))
    · have ham : a = m := by omega
      subst ham
      exact hstep a (by omega)

/-- **C8**: in the recursive case of `split_long_segment` (list of at least
two fragments whose text exceeds the maximum word count), the chosen split
index is `n // 2` when all gaps are within `1e-6` of the first, and otherwise
the first index of maximal following gap within `range(n // 6, 5 * n // 6)`;
in particular, under strictly increasing gaps the split index is the unique
maximum-gap index of that middle range. -/
theorem C8_split_determinism (segs : List ASRDataSeg) (maxWC : Nat)
    (h2 : 2 ≤ segs.length) (hlong : maxWC < count_words (textOf segs)) :
    (allEqualGaps segs = true → splitIndexOf segs = segs.length / 2) ∧
    (allEqualGaps segs = false →
      IsFirstArgmaxOn (gapAfter segs) (segs.length / 6) (5 * segs.length / 6)
        (splitIndexOf segs)) ∧
    (allEqualGaps segs = false →
      (∀ i, i + 1 < segs.length - 1 → gapAfter segs i < gapAfter segs (i + 1)) →
      ∀ j, segs.length / 6 ≤ j → j < 5 * segs.length / 6 → j ≠ splitIndexOf segs →
        gapAfter segs j < gapAfter segs (splitIndexOf segs)) := by
  have part1 : allEqualGaps segs = true → splitIndexOf segs = segs.length / 2 :=
    fun hEq => by simp [splitIndexOf, hEq]
  have part2 : allEqualGaps segs = false →
      IsFirstArgmaxOn (gapAfter segs) (segs.length / 6) (5 * segs.length / 6)
        (splitIndexOf segs) := by
    intro hNe
    have h3 := three_le_of_not_allEqual hNe
    have hlt : segs.length / 6 < 5 * segs.length / 6 := by omega
    have hres := pyMaxBy_spec (gapAfter segs) (segs.length / 6) (5 * segs.length / 6)
      (segs.length / 2) hlt
    simpa [splitIndexOf, hNe] using hres
  refine ⟨part1, part2, fun hNe hInc j hj1 hj2 hj3 => ?_⟩
  have hfa := part2 hNe
  have h3 := three_le_of_not_allEqual hNe
  rcases Nat.lt_or_ge j (splitIndexOf segs) with hj | hj
  · exact hfa.2.2.2 j hj1 hj
  · have hjm : splitIndexOf segs < j := by omega
    have hlt2 : gapAfter segs (splitIndexOf segs) < gapAfter segs j :=
      strict_chain_lt (gapAfter segs) (segs.length - 1) hInc _ j hjm (by omega)
    have hle : gapAfter segs j ≤ gapAfter segs (splitIndexOf segs) :=
      hfa.2.2.1 j hj1 hj2
    exact absurd hlt2 (not_lt.mpr hle)

/-- Witness for C8 on six fragments with strictly increasing gaps and a small
maximum word count. -/
theorem C8_split_determinism_witness :
    (allEqualGaps c8segs = true → splitIndexOf c8segs = c8segs.length / 2) ∧
    (allEqualGaps c8segs = false →
      IsFirstArgmaxOn (gapAfter c8segs) (c8segs.length / 6) (5 * c8segs.length / 6)
        (splitIndexOf c8segs)) ∧
    (allEqualGaps c8segs = false →
      (∀ i, i + 1 < c8segs.length - 1 → gapAfter c8segs i < gapAfter c8segs (i + 1)) →
      ∀ j, c8segs.length / 6 ≤ j → j < 5 * c8segs.length / 6 → j ≠ splitIndexOf c8segs →
        gapAfter c8segs j < gapAfter c8segs (splitIndexOf c8segs)) :=
  C8_split_determinism c8segs 5 (by decide) (by decide)

/-! ## Claim C3 -/

/-- **C3 counterexample**: with fragments `["hello", "world"]` and the single
sentence `"hello"`, the alignment pass runs to completion with the single
accepted range `(0, 0)`; fragment index 1 (`"world"`, a valid index since the
input has two fragments) lies in no examined range, so the ranges do not
cover every original fragment. -/
theorem C3_coverage_counterexample :
    (alignRun 12 c3segs c3sents).map (fun st => st.ranges) = Except.ok [(0, 0)] ∧
    c3segs.length = 2 ∧
    (∀ r ∈ ([(0, 0)] : List (Nat × Nat)), ¬(r.1 ≤ 1 ∧ 1 ≤ r.2)) :=
  ⟨by with_unfolding_all rfl, rfl, by decide⟩

/-- Elements of `pyRangeNat a b` are at least `a`. -/
lemma mem_pyRangeNat_le {a b x : Nat} (h : x ∈ pyRangeNat a b) : a ≤ x := by
  rw [pyRangeNat_eq_range'] at h
  rcases List.mem_range'.mp h with ⟨i, _, rfl⟩
  omega

/-- `insertStable` only inserts the given element. -/
lemma mem_of_mem_insertStable {α β : Type} [LinearOrder β] {key : α → β} {x y : α}
    {l : List α} (h : y ∈ insertStable key x l) : y = x ∨ y ∈ l := by
  induction l with
  | nil => simpa [insertStable] using h
  | cons a l ih =>
    simp only [insertStable] at h
    split at h
    · rcases List.mem_cons.mp h with h1 | h1
      · exact Or.inl h1
      · exact Or.inr h1
    · rcases List.mem_cons.mp h with h1 | h1
      · exact Or.inr (List.mem_cons.mpr (Or.inl h1))
      · rcases ih h1 with h2 | h2
        · exact Or.inl h2
        · exact Or.inr (List.mem_cons.mpr (Or.inr h2))

/-- The stable sort permutes, so membership is preserved. -/
lemma mem_of_mem_sortStable {α β : Type} [LinearOrder β] {key : α → β} {y : α}
    {l : List α} (h : y ∈ sortStableByKey key l) : y ∈ l := by
  induction l with
  | nil => simpa [sortStableByKey] using h
  | cons a l ih =>
    simp only [sortStableByKey] at h
    rcases mem_of_mem_insertStable h with h1 | h1
    · simp [h1]
    · exact List.mem_cons_of_mem _ (ih h1)

/-- Every recorded best position lies at or after the cursor `lo`, with a
positive window. -/
def SearchOk (lo : Nat) (b : Best) : Prop :=
  ∀ p, b.bestPos = some p → lo ≤ p ∧ 1 ≤ b.bestWindow

/-- A single best-update step preserves `SearchOk` when the candidate start
is at or after the cursor and the window is positive. -/
lemma SearchOk_update {lo s ws : Nat} {r : ℚ} {b : Best} (hs : lo ≤ s) (hws : 1 ≤ ws)
    (hb : SearchOk lo b) :
    SearchOk lo (if b.bestRatioQ < r then (⟨r, some s, ws⟩ : Best) else b) := by
  split
  · intro p hp
    obtain rfl : s = p := by simpa using hp
    exact ⟨hs, hws⟩
  · exact hb

/-- The start-position scan preserves `SearchOk` when all scanned starts are
at or after the cursor. -/
lemma scanStarts_searchOk {lo : Nat} {sp : List Char} {T : List (List Char)} {ws : Nat}
    (hws : 1 ≤ ws) :
    ∀ (starts : List Nat), (∀ s ∈ starts, lo ≤ s) → ∀ b : Best, SearchOk lo b →
      SearchOk lo (scanStarts sp T ws starts b).1 := by
  intro starts
  induction starts with
  | nil => exact fun _ b hb => hb
  | cons s rest ih =>
    intro hst b hb
    have hbnew := SearchOk_update (r := ratioQ sp (preprocess_text ((T.drop s).take ws).flatten))
      (hst s (List.mem_cons_self _ _)) hws hb
    simp only [scanStarts]
    split
    · exact hbnew
    · exact ih (fun x hx => hst x (List.mem_cons_of_mem _ hx)) _ hbnew

/-- The window-size scan preserves `SearchOk` for positive window sizes. -/
lemma scanWindows_searchOk {lo maxShift asrLen : Nat} {sp : List Char}
    {T : List (List Char)} :
    ∀ (wss : List Nat), (∀ w ∈ wss, 1 ≤ w) → ∀ b : Best, SearchOk lo b →
      SearchOk lo (scanWindows sp T asrLen lo maxShift wss b) := by
  intro wss
  induction wss with
  | nil => exact fun _ b hb => hb
  | cons ws rest ih =>
    intro hws b hb
    have hnew := @scanStarts_searchOk lo sp T ws (hws ws (List.mem_cons_self _ _))
      (pyRangeNat lo (min (lo + maxShift + 1) (asrLen - ws + 1)))
      (fun s hs => mem_pyRangeNat_le hs) b hb
    simp only [scanWindows]
    split
    · exact hnew
    · exact ih (fun w hw => hws w (List.mem_cons_of_mem _ hw)) _ hnew

/-- The full per-sentence search satisfies `SearchOk` at the current cursor:
window sizes are at least `max 1 (w // 2) ≥ 1` and starts begin at the
cursor. -/
lemma sentenceBest_searchOk (T : List (List Char)) (st : AlignState)
    (sent : List Char) : SearchOk st.asrIndex (sentenceBest T st sent) := by
  unfold sentenceBest
  apply scanWindows_searchOk
  · intro w hw
    have hw2 := mem_pyRangeNat_le (mem_of_mem_sortStable hw)
    omega
  · intro p hp
    cases hp

/-- The loop invariant of the aligner: accepted ranges are strictly
increasing and disjoint, all below the cursor, and after the first
acceptance the cursor sits one past the stored `end_seg_index`. -/
def AlignInv (st : AlignState) : Prop :=
  List.Chain' (fun r1 r2 : Nat × Nat => r1.2 < r2.1) st.ranges ∧
  (∀ r ∈ st.ranges, r.1 ≤ r.2) ∧
  (∀ r ∈ st.ranges, r.2 < st.asrIndex) ∧
  (∀ e, st.endSegIdx = some e → st.asrIndex = e + 1)

/-- The reject branch leaves the ranges untouched and the cursor in place. -/
lemma rejectStep_inv {st st' : AlignState} (hInv : AlignInv st)
    (h : rejectStep st = Except.ok st') : AlignInv st' := by
  unfold rejectStep at h
  split at h
  · exact Except.noConfusion h
  case _ e heq =>
    cases h
    have hidx := hInv.2.2.2 e heq
    refine ⟨hInv.1, hInv.2.1, ?_, ?_⟩
    · intro r hr
      have hlt := hInv.2.2.1 r hr
      rw [hidx] at hlt
      exact hlt
    · intro e2 he2
      have he3 : st.endSegIdx = some e2 := he2
      rw [heq] at he3
      injection he3 with he4
      rw [he4]

/-- One aligner step preserves the invariant. -/
lemma stepSentence_inv {maxWC : Nat} {T : List (List Char)} {segs : List ASRDataSeg}
    {st st' : AlignState} {sent : List Char} (hInv : AlignInv st)
    (h : stepSentence maxWC T segs st sent = Except.ok st') : AlignInv st' := by
  unfold stepSentence at h
  dsimp only at h
  split at h
  case _ p heq =>
    split at h
    case isTrue hhalf =>
      split at h
      · exact Except.noConfusion h
      case _ newSegs hmap =>
        cases h
        obtain ⟨hpos, hwin⟩ := sentenceBest_searchOk T st sent p heq
        constructor
        · refine List.Chain'.append hInv.1 (List.chain'_singleton _) ?_
          intro x hx y hy
          obtain rfl : (p, p + (sentenceBest T st sent).bestWindow - 1) = y := by
            simpa using hy
          have hxm : x ∈ st.ranges := List.mem_of_getLast?_eq_some hx
          have hxlt := hInv.2.2.1 x hxm
          show x.2 < p
          omega
        refine ⟨?_, ?_, ?_⟩
        · intro r hr
          rcases List.mem_append.mp hr with hro | hrn
          · exact hInv.2.1 r hro
          · obtain rfl : r = (p, p + (sentenceBest T st sent).bestWindow - 1) := by
              simpa using hrn
            show p ≤ p + (sentenceBest T st sent).bestWindow - 1
            omega
        · intro r hr
          show r.2 < p + (sentenceBest T st sent).bestWindow - 1 + 1
          rcases List.mem_append.mp hr with hro | hrn
          · have hlt := hInv.2.2.1 r hro
            omega
          · obtain rfl : r = (p, p + (sentenceBest T st sent).bestWindow - 1) := by
              simpa using hrn
            omega
        · intro e he
          obtain rfl : p + (sentenceBest T st sent).bestWindow - 1 = e := by
            simpa using he
          rfl
    case isFalse => exact rejectStep_inv hInv h
  case _ heq => exact rejectStep_inv hInv h

/-- The sentence fold preserves the invariant. -/
lemma alignFold_inv {maxWC : Nat} {T : List (List Char)} {segs : List ASRDataSeg} :
    ∀ (sents : List (List Char)) (st st' : AlignState),
      List.foldlM (stepSentence maxWC T segs) st sents = Except.ok st' →
      AlignInv st → AlignInv st' := by
  intro sents
  induction sents with
  | nil =>
    intro st st' h hInv
    have h2 : Except.ok st = Except.ok st' := h
    cases h2
    exact hInv
  | cons s rest ih =>
    intro st st' h hInv
    have h2 : (stepSentence maxWC T segs st s >>= fun st1 =>
        List.foldlM (stepSentence maxWC T segs) st1 rest) = Except.ok st' := h
    cases hstep : stepSentence maxWC T segs st s with
    | error e =>
      rw [hstep] at h2
      exact Except.noConfusion h2
    | ok st1 =>
      rw [hstep] at h2
      exact ih st1 st' h2 (stepSentence_inv hInv hstep)

/-- **C3 amended**: on every completed alignment pass the accepted fragment
ranges are strictly increasing and pairwise disjoint — no fragment is
duplicated across ranges — but they need not cover all fragments: fragments
between the cursor and an accepted match's start, and fragments after the
final cursor, lie outside every range (see the counterexample). -/
theorem C3_accepted_ranges_disjoint (maxWC : Nat) (segs : List ASRDataSeg)
    (sents : List (List Char)) (st : AlignState)
    (h : alignRun maxWC segs sents = Except.ok st) :
    List.Chain' (fun r1 r2 : Nat × Nat => r1.2 < r2.1) st.ranges ∧
    ∀ r ∈ st.ranges, r.1 ≤ r.2 := by
  have hInv0 : AlignInv alignInit :=
    ⟨List.chain'_nil, by simp [alignInit], by simp [alignInit], fun e he => by cases he⟩
  have hres := alignFold_inv sents alignInit st h hInv0
  exact ⟨hres.1, hres.2.1⟩

/-- Witness for C3 amended on the counterexample input. -/
theorem C3_accepted_ranges_disjoint_witness :
    List.Chain' (fun r1 r2 : Nat × Nat => r1.2 < r2.1)
      (AlignState.mk 1 30 (some 0) [⟨"hello".data, 0, 100⟩] [(0, 0)]).ranges ∧
    ∀ r ∈ (AlignState.mk 1 30 (some 0) [⟨"hello".data, 0, 100⟩] [(0, 0)]).ranges,
      r.1 ≤ r.2 :=
  C3_accepted_ranges_disjoint 12 c3segs c3sents
    (AlignState.mk 1 30 (some 0) [⟨"hello".data, 0, 100⟩] [(0, 0)])
    (by with_unfolding_all rfl)

end Spliter
